import Mathlib

/-!
Verification of the `cl` module (`src/cl.py`), a minimal command-line
argument helper.  The module keeps two process-wide lists:
`_original_arguments` (immutable, used for lookups) and `arguments`
(mutable, the remaining unconsumed tokens), and exposes `flag` and
`option` queries plus Windows-only glob expansion of the raw argument
vector.

Shallow embedding conventions:
  * Python lists of strings become `List String`; `list.index` becomes
    `List.indexOf?` (first occurrence, `none` models the `ValueError`),
    `list.remove` guarded by `in` becomes a guarded `List.erase`
    (first occurrence), and indexing `l[i]` becomes `List.get?`
    (`none` models the `IndexError`).
  * The pair of module-level lists becomes the state structure `CL`.
  * Python exceptions raised by the caller-supplied `convert` function
    are modelled by `Except PyExc`; `option`'s single `try` block
    catches `ValueError` and `IndexError` wherever they arise inside
    it, so those two constructors can be intercepted while any other
    exception propagates.
  * The filesystem `glob` primitive and the `'win32' in sys.platform`
    test are parameters (`globFn`, `isWin32`) of the embedding of
    `_glob_expand`.
-/

/-- Python exception kinds that the control flow of `cl.option`
distinguishes: `ValueError`, `IndexError`, and every other exception. -/
inductive PyExc where
  | valueError : PyExc
  | indexError : PyExc
  | otherExc : PyExc
deriving DecidableEq, Repr

/-- The module-level state of `cl.py`: `original` embeds the read-only
`_original_arguments` list and `arguments` embeds the mutable
`arguments` list that queries consume from. -/
structure CL where
  original : List String
  arguments : List String
deriving DecidableEq, Repr

/-- Module initialisation (`arguments = _glob_expand(sys.argv[1:])`;
`_original_arguments = arguments.copy()`): both lists start equal to the
raw (already glob-expanded) argument vector. -/
def initCL (raw : List String) : CL :=
  { original := raw, arguments := raw }

/-- Embedding of `cl.flag(name)`.  It searches `_original_arguments`
for `name` (a `ValueError` from `list.index`, i.e. `none` from
`indexOf?`, means absent and yields `False`); when present it removes
the first occurrence of `name` from `arguments` if one is still there
and returns `True`.  The result pairs the returned boolean with the
updated module state. -/
def flag (name : String) (st : CL) : Bool × CL :=
  match st.original.indexOf? name with
  | none => (false, st)
  | some _ =>
      (true,
       { st with
         arguments :=
           if name ∈ st.arguments then st.arguments.erase name
           else st.arguments })

/-- Embedding of `cl.option(name, default, missing, convert)`.  The
Python body is one `try` block: `_original_arguments.index(name)` (a
`ValueError` when absent is caught, returning `default`); a guarded
removal of `name` from `arguments`; `_original_arguments[i + 1]` (an
`IndexError` when `name` was last is caught, returning `missing`); a
guarded removal of the value token from `arguments`; and finally
`convert(value)`, whose exceptions land in the same `except` clauses:
a `ValueError` from `convert` is caught and yields `default`, an
`IndexError` yields `missing`, and any other exception propagates.
State mutations performed before the exception are kept. -/
def option {α : Type} (name : String) (default missing : α)
    (convert : String → Except PyExc α) (st : CL) : Except PyExc α × CL :=
  match st.original.indexOf? name with
  | none => (Except.ok default, st)
  | some i =>
      let args₁ :=
        if name ∈ st.arguments then st.arguments.erase name
        else st.arguments
      match st.original.get? (i + 1) with
      | none => (Except.ok missing, { st with arguments := args₁ })
      | some value =>
          let args₂ := if value ∈ args₁ then args₁.erase value else args₁
          let st₂ : CL := { st with arguments := args₂ }
          match convert value with
          | Except.ok v => (Except.ok v, st₂)
          | Except.error PyExc.valueError => (Except.ok default, st₂)
          | Except.error PyExc.indexError => (Except.ok missing, st₂)
          | Except.error PyExc.otherExc => (Except.error PyExc.otherExc, st₂)

/-- Embedding of `cl._glob_expand(arguments)`.  On Windows it rebuilds
the list by appending, for each argument in order, either the glob
matches (when `glob(arg)` is non-empty) or the argument itself; on
other platforms it returns the list unchanged.  The filesystem glob
call and the platform test are parameters. -/
def glob_expand (isWin32 : Bool) (globFn : String → List String)
    (arguments : List String) : List String :=
  if isWin32 then
    arguments.foldl
      (fun acc arg =>
        let globbed := globFn arg
        if globbed.isEmpty then acc ++ [arg] else acc ++ globFn arg)
      []
  else
    arguments

/-! ### Helper lemmas -/

/-- The guarded removal `if name in arguments: arguments.remove(name)` is
plain first-occurrence erasure: erasing an absent element is a no-op. -/
theorem if_mem_erase (a : String) (l : List String) :
    (if a ∈ l then l.erase a else l) = l.erase a := by
  by_cases h : a ∈ l
  · rw [if_pos h]
  · rw [if_neg h, List.erase_of_not_mem h]

/-- A `list.index` lookup fails (raises `ValueError`) exactly when the
element is absent. -/
theorem indexOf?_eq_none_iff_not_mem (l : List String) (a : String) :
    l.indexOf? a = none ↔ a ∉ l := by
  rw [List.indexOf?_eq_none_iff]
  constructor
  · intro h ha
    exact h a ha (by simp)
  · intro h x hx hxa
    exact h ((eq_of_beq hxa) ▸ hx)

/-- A present element has an index found by `indexOf?`. -/
theorem indexOf?_isSome_of_mem {l : List String} {a : String} (h : a ∈ l) :
    ∃ i, l.indexOf? a = some i := by
  cases hidx : l.indexOf? a with
  | none => exact absurd ((indexOf?_eq_none_iff_not_mem l a).mp hidx) (by simp [h])
  | some i => exact ⟨i, rfl⟩

/-- One `flag` call shrinks the working list to a sublist and leaves the
original list untouched. -/
theorem flag_state_sublist (name : String) (st : CL) :
    (flag name st).2.arguments.Sublist st.arguments
    ∧ (flag name st).2.original = st.original := by
  unfold flag
  cases st.original.indexOf? name with
  | none => exact ⟨List.Sublist.refl _, rfl⟩
  | some i =>
    refine ⟨?_, rfl⟩
    simp only [if_mem_erase]
    exact List.erase_sublist _ _

/-- One `option` call shrinks the working list to a sublist and leaves
the original list untouched, whatever `convert` does. -/
theorem option_state_sublist {α : Type} (name : String) (d m : α)
    (c : String → Except PyExc α) (st : CL) :
    (option name d m c st).2.arguments.Sublist st.arguments
    ∧ (option name d m c st).2.original = st.original := by
  unfold option
  split
  · exact ⟨List.Sublist.refl _, rfl⟩
  · simp only [if_mem_erase]
    split
    · exact ⟨List.erase_sublist _ _, rfl⟩
    · split <;>
        exact ⟨(List.erase_sublist _ _).trans (List.erase_sublist _ _), rfl⟩

/-! ### Claim theorems -/

/-- C7: `flag(name)` returns `True` exactly when `name` occurs as an
exact whole-token equality match in the original (immutable) argument
list, independently of what is left in the working list; when `name` is
absent it returns `False` and the working list is untouched (and when
present, the only side effect is erasing the first remaining occurrence
of `name`). -/
theorem flag_exact_presence (st : CL) (name : String) :
    ((flag name st).1 = true ↔ name ∈ st.original)
    ∧ (flag name st).2.original = st.original
    ∧ (flag name st).2.arguments
      = (if name ∈ st.original then st.arguments.erase name
         else st.arguments) := by
  unfold flag
  cases hidx : st.original.indexOf? name with
  | none =>
    have hnm : name ∉ st.original := (indexOf?_eq_none_iff_not_mem _ _).mp hidx
    simp [hnm]
  | some i =>
    have hm : name ∈ st.original := by
      by_contra hnm
      rw [(indexOf?_eq_none_iff_not_mem _ _).mpr hnm] at hidx
      exact Option.noConfusion hidx
    simp [hm, if_mem_erase]

/-- C6: when `name` does not occur in the original argument list,
`option` returns `default` unchanged (no `convert` application) and has
no side effect on the state at all. -/
theorem option_absent_default {α : Type} (st : CL) (name : String)
    (d m : α) (c : String → Except PyExc α) (h : name ∉ st.original) :
    option name d m c st = (Except.ok d, st) := by
  unfold option
  rw [(indexOf?_eq_none_iff_not_mem _ _).mpr h]

/-- Witness for C6: with arguments `["a", "b"]` not containing `-n`,
`option("-n", default=0, convert=int-like)` returns `0` and leaves the
state untouched. -/
theorem option_absent_default_witness :
    ("-n" ∉ (["a", "b"] : List String))
    ∧ option "-n" (0 : Nat) 7
        (fun s => if s = "5" then Except.ok 5 else Except.error PyExc.valueError)
        (initCL ["a", "b"])
      = (Except.ok 0, initCL ["a", "b"]) :=
  ⟨by decide, option_absent_default _ _ _ _ _ (by decide)⟩

/-- C5: when `name`'s first occurrence is the last element of the
original list (no following token), `option` returns the `missing`
sentinel as-is, bypassing `convert`, and still erases `name` itself
from the working list. -/
theorem option_missing_value {α : Type} (st : CL) (name : String) (i : Nat)
    (d m : α) (c : String → Except PyExc α)
    (hi : st.original.indexOf? name = some i)
    (hlast : st.original.length = i + 1) :
    (option name d m c st).1 = Except.ok m
    ∧ (option name d m c st).2.original = st.original
    ∧ (option name d m c st).2.arguments = st.arguments.erase name := by
  have hnone : st.original.get? (i + 1) = none :=
    List.get?_eq_none.mpr (by omega)
  simp only [option, hi, hnone, if_mem_erase]
  exact ⟨trivial, trivial, trivial⟩

/-- Witness for C5: with input `["-f"]`, `option("-f")` (Python default
sentinels `default=None`, `missing=''`) returns the `missing` sentinel
`''` and the working list becomes empty. -/
theorem option_missing_value_witness :
    ((["-f"] : List String).indexOf? "-f" = some 0)
    ∧ (["-f"] : List String).length = 0 + 1
    ∧ (option "-f" (none : Option String) (some "")
        (fun s => Except.ok (some s)) (initCL ["-f"])).1 = Except.ok (some "")
    ∧ (option "-f" (none : Option String) (some "")
        (fun s => Except.ok (some s)) (initCL ["-f"])).2.arguments = [] := by
  have h := option_missing_value (initCL ["-f"]) "-f" 0 (none : Option String)
    (some "") (fun s => Except.ok (some s)) (by decide) (by decide)
  exact ⟨by decide, by decide, h.1, by rw [h.2.2]; decide⟩

/-- C2: when `name` first occurs at index `i` of the original list and
a token follows at `i + 1`, `option` erases the first remaining
occurrence of `name`, then the first remaining occurrence of that
adjacent original token, and returns `convert` applied to the token at
`i + 1` of the ORIGINAL order (never the next remaining token of the
working list). -/
theorem option_adjacent_value {α : Type} (st : CL) (name : String) (i : Nat)
    (d m : α) (f : String → α)
    (hi : st.original.indexOf? name = some i)
    (hv : i + 1 < st.original.length) :
    (option name d m (fun s => Except.ok (f s)) st).1
      = Except.ok (f (st.original.get ⟨i + 1, hv⟩))
    ∧ (option name d m (fun s => Except.ok (f s)) st).2.original = st.original
    ∧ (option name d m (fun s => Except.ok (f s)) st).2.arguments
      = (st.arguments.erase name).erase (st.original.get ⟨i + 1, hv⟩) := by
  have hval : st.original.get? (i + 1) = some (st.original.get ⟨i + 1, hv⟩) :=
    List.get?_eq_get hv
  simp only [option, hi, hval, if_mem_erase]
  exact ⟨trivial, trivial, trivial⟩

/-- Witness for C2: with input `["-r", "-f", "infile.txt", "extra"]`,
`option("-f", default=None, missing='', convert=str)` returns
`"infile.txt"` and the working list becomes `["-r", "extra"]`. -/
theorem option_adjacent_value_witness :
    ((["-r", "-f", "infile.txt", "extra"] : List String).indexOf? "-f" = some 1)
    ∧ (1 + 1 < (["-r", "-f", "infile.txt", "extra"] : List String).length)
    ∧ (option "-f" (none : Option String) (some "")
        (fun s => Except.ok (some s))
        (initCL ["-r", "-f", "infile.txt", "extra"])).1
      = Except.ok (some "infile.txt")
    ∧ (option "-f" (none : Option String) (some "")
        (fun s => Except.ok (some s))
        (initCL ["-r", "-f", "infile.txt", "extra"])).2.arguments
      = ["-r", "extra"] := by
  have h := option_adjacent_value (initCL ["-r", "-f", "infile.txt", "extra"])
    "-f" 1 (none : Option String) (some "") some (by decide) (by decide)
  exact ⟨by decide, by decide, h.1, by rw [h.2.2]; decide⟩

/-- C4 counterexample: with input `["-r", "-r"]` (a duplicated flag),
the first `flag("-r")` call erases one occurrence and the second call
erases the other, so two calls in a row remove the token twice in
total, refuting the claim that the second call performs no further
removal and that `name` is removed from the working list at most once
in total. -/
theorem flag_twice_duplicate_counterexample :
    (flag "-r" (initCL ["-r", "-r"])).1 = true
    ∧ (flag "-r" (initCL ["-r", "-r"])).2.arguments = ["-r"]
    ∧ (flag "-r" (flag "-r" (initCL ["-r", "-r"])).2).1 = true
    ∧ (flag "-r" (flag "-r" (initCL ["-r", "-r"])).2).2.arguments = [] :=
  ⟨rfl, rfl, rfl, rfl⟩

/-- C4 (amended): when `name` occurs at most once in the original
argument list, two `flag(name)` calls in a row both return `true`, the
first call erases the single occurrence, and the second call performs
no further removal: the working list after the second call is the same
as after the first. -/
theorem flag_twice_idempotent (raw : List String) (name : String)
    (h1 : name ∈ raw) (h2 : raw.count name ≤ 1) :
    (flag name (initCL raw)).1 = true
    ∧ (flag name (initCL raw)).2.arguments = raw.erase name
    ∧ (flag name (flag name (initCL raw)).2).1 = true
    ∧ (flag name (flag name (initCL raw)).2).2.arguments = raw.erase name := by
  obtain ⟨i, hi⟩ := indexOf?_isSome_of_mem h1
  have harg1 : (flag name (initCL raw)).2 = ⟨raw, raw.erase name⟩ := by
    simp only [flag, initCL, hi, if_mem_erase]
  have hnm2 : name ∉ raw.erase name := by
    intro hmem
    have := List.count_pos_iff.mpr hmem
    rw [List.count_erase_self] at this
    omega
  refine ⟨?_, ?_, ?_, ?_⟩
  · simp only [flag, initCL, hi]
  · rw [harg1]
  · rw [harg1]; simp only [flag, hi]
  · rw [harg1]
    simp only [flag, hi, if_neg hnm2]

/-- Witness for the amended C4: with input `["-r", "x"]`, both
`flag("-r")` calls return `true`, and the working list after each call
is `["x"]` — removal happens only once. -/
theorem flag_twice_idempotent_witness :
    ("-r" ∈ (["-r", "x"] : List String)
      ∧ (["-r", "x"] : List String).count "-r" ≤ 1)
    ∧ ((flag "-r" (initCL ["-r", "x"])).1 = true
      ∧ (flag "-r" (initCL ["-r", "x"])).2.arguments = ["-r", "x"].erase "-r"
      ∧ (flag "-r" (flag "-r" (initCL ["-r", "x"])).2).1 = true
      ∧ (flag "-r" (flag "-r" (initCL ["-r", "x"])).2).2.arguments
        = ["-r", "x"].erase "-r") :=
  ⟨⟨by decide, by decide⟩,
   flag_twice_idempotent ["-r", "x"] "-r" (by decide) (by decide)⟩

/-- C1 counterexample: with input `["-n", "abc"]` and a `convert` that
raises `ValueError` on the retrieved value string (as `int` does on
`"abc"`), `option("-n", default=0, ...)` does NOT propagate the failure:
the shared `except ValueError` clause catches it and the call returns
the default `0`, refuting the claim that a conversion failure always
propagates to the caller uncaught. -/
theorem option_convert_caught_counterexample :
    (option "-n" (0 : Nat) 99 (fun _ => Except.error PyExc.valueError)
        (initCL ["-n", "abc"])).1 = Except.ok 0
    ∧ (option "-n" (0 : Nat) 99 (fun _ => Except.error PyExc.valueError)
        (initCL ["-n", "abc"])).1 ≠ Except.error PyExc.valueError :=
  ⟨rfl, fun h => Except.noConfusion h⟩

/-- C1 (amended): the routing of every possible outcome of `convert` on
the retrieved value string: a `ValueError` raised by `convert` is
intercepted by `option`'s own `except ValueError` clause and the call
returns `default`; an `IndexError` is intercepted by the
`except IndexError` clause and the call returns `missing`; any other
exception escapes `option` unchanged; and an exception surfaces from
the call ONLY when `convert` raised one that is neither a `ValueError`
nor an `IndexError`. -/
theorem option_convert_failure_routing {α : Type} (st : CL) (name : String)
    (i : Nat) (value : String) (d m : α) (c : String → Except PyExc α)
    (hi : st.original.indexOf? name = some i)
    (hv : st.original.get? (i + 1) = some value) :
    (c value = Except.error PyExc.valueError
      → (option name d m c st).1 = Except.ok d)
    ∧ (c value = Except.error PyExc.indexError
      → (option name d m c st).1 = Except.ok m)
    ∧ (c value = Except.error PyExc.otherExc
      → (option name d m c st).1 = Except.error PyExc.otherExc)
    ∧ (∀ e : PyExc, (option name d m c st).1 = Except.error e
      → e = PyExc.otherExc ∧ c value = Except.error PyExc.otherExc) := by
  refine ⟨fun hc => ?_, fun hc => ?_, fun hc => ?_, fun e he => ?_⟩
  · simp only [option, hi, hv, hc]
  · simp only [option, hi, hv, hc]
  · simp only [option, hi, hv, hc]
  · cases hc : c value with
    | ok v =>
      rw [show (option name d m c st).1 = Except.ok v by
            simp only [option, hi, hv, hc]] at he
      exact absurd he (fun h => Except.noConfusion h)
    | error e2 =>
      cases e2 with
      | valueError =>
        rw [show (option name d m c st).1 = Except.ok d by
              simp only [option, hi, hv, hc]] at he
        exact absurd he (fun h => Except.noConfusion h)
      | indexError =>
        rw [show (option name d m c st).1 = Except.ok m by
              simp only [option, hi, hv, hc]] at he
        exact absurd he (fun h => Except.noConfusion h)
      | otherExc =>
        rw [show (option name d m c st).1 = Except.error PyExc.otherExc by
              simp only [option, hi, hv, hc]] at he
        exact ⟨(Except.error.inj he).symm, rfl⟩

/-- Witness for the amended C1: with input `["-n", "abc"]`, a `convert`
raising `IndexError` makes `option("-n", default=0, missing=99)` return
the missing sentinel `99`, while a `convert` raising an exception other
than `ValueError`/`IndexError` makes the error escape as the call's
result. -/
theorem option_convert_failure_routing_witness :
    ((["-n", "abc"] : List String).indexOf? "-n" = some 0
      ∧ (["-n", "abc"] : List String).get? (0 + 1) = some "abc")
    ∧ (option "-n" (0 : Nat) 99 (fun _ => Except.error PyExc.indexError)
        (initCL ["-n", "abc"])).1 = Except.ok 99
    ∧ (option "-n" (0 : Nat) 99 (fun _ => Except.error PyExc.otherExc)
        (initCL ["-n", "abc"])).1 = Except.error PyExc.otherExc :=
  ⟨⟨by decide, by decide⟩,
   (option_convert_failure_routing (initCL ["-n", "abc"]) "-n" 0 "abc"
      (0 : Nat) 99 (fun _ => Except.error PyExc.indexError)
      (by decide) (by decide)).2.1 rfl,
   (option_convert_failure_routing (initCL ["-n", "abc"]) "-n" 0 "abc"
      (0 : Nat) 99 (fun _ => Except.error PyExc.otherExc)
      (by decide) (by decide)).2.2.1 rfl⟩

/-- C10: when `name` has a following value token and `convert` raises
`ValueError` on it, `option` returns `default` instead of letting the
exception escape, and the erasures of `name` and of the value token
from the working list, performed before the conversion attempt, are
kept (so an absent option and a failed conversion return the same
value but differ in their effect on the working list). -/
theorem option_convert_valueError_default {α : Type} (st : CL) (name : String)
    (i : Nat) (value : String) (d m : α) (c : String → Except PyExc α)
    (hi : st.original.indexOf? name = some i)
    (hv : st.original.get? (i + 1) = some value)
    (hc : c value = Except.error PyExc.valueError) :
    (option name d m c st).1 = Except.ok d
    ∧ (option name d m c st).2.original = st.original
    ∧ (option name d m c st).2.arguments
      = (st.arguments.erase name).erase value := by
  simp only [option, hi, hv, hc, if_mem_erase]
  exact ⟨trivial, trivial, trivial⟩

/-- Witness for C10: with input `["-n", "abc"]` and an `int`-like
`convert` that raises `ValueError` on `"abc"`, `option("-n", default=0)`
returns `0` and both tokens remain removed from the working list. -/
theorem option_convert_valueError_default_witness :
    ((["-n", "abc"] : List String).indexOf? "-n" = some 0
      ∧ (["-n", "abc"] : List String).get? (0 + 1) = some "abc"
      ∧ (fun s : String =>
          if s = "5" then Except.ok 5 else Except.error PyExc.valueError) "abc"
        = Except.error PyExc.valueError)
    ∧ ((option "-n" (0 : Nat) 99
          (fun s =>
            if s = "5" then Except.ok 5 else Except.error PyExc.valueError)
          (initCL ["-n", "abc"])).1 = Except.ok 0
      ∧ (option "-n" (0 : Nat) 99
          (fun s =>
            if s = "5" then Except.ok 5 else Except.error PyExc.valueError)
          (initCL ["-n", "abc"])).2.arguments = []) := by
  have h := option_convert_valueError_default (initCL ["-n", "abc"]) "-n" 0 "abc"
    (0 : Nat) 99
    (fun s =>
      if s = "5" then Except.ok 5 else Except.error PyExc.valueError)
    (by decide) (by decide) rfl
  exact ⟨⟨by decide, by decide, rfl⟩, h.1, by rw [h.2.2]; decide⟩

/-- A state transformer is a query step when it is the state effect of
some `flag` call, or of some `option` call with arbitrary name, return
type, `default`, `missing`, and `convert` arguments. -/
def IsQueryStep (f : CL → CL) : Prop :=
  (∃ name : String, f = fun st => (flag name st).2)
  ∨ (∃ (α : Type) (name : String) (d m : α) (c : String → Except PyExc α),
      f = fun st => (option name d m c st).2)

/-- Run a finite sequence of query state effects from a start state. -/
def runQueries (qs : List (CL → CL)) (st : CL) : CL :=
  qs.foldl (fun s f => f s) st

/-- Any single query step shrinks the working list to a sublist of the
previous one and never touches the original list. -/
theorem queryStep_sublist {f : CL → CL} (hf : IsQueryStep f) (st : CL) :
    (f st).arguments.Sublist st.arguments ∧ (f st).original = st.original := by
  rcases hf with ⟨name, rfl⟩ | ⟨α, name, d, m, c, rfl⟩
  · exact flag_state_sublist name st
  · exact option_state_sublist name d m c st

/-- Running any sequence of query steps shrinks the working list to a
sublist and preserves the original list. -/
theorem runQueries_sublist (qs : List (CL → CL))
    (h : ∀ f ∈ qs, IsQueryStep f) (st : CL) :
    (runQueries qs st).arguments.Sublist st.arguments
    ∧ (runQueries qs st).original = st.original := by
  induction qs generalizing st with
  | nil => exact ⟨List.Sublist.refl _, rfl⟩
  | cons f qs ih =>
    have hf : IsQueryStep f := h f (List.mem_cons_self f qs)
    have hrest := ih (fun g hg => h g (List.mem_cons_of_mem f hg)) (f st)
    have hstep := queryStep_sublist hf st
    exact ⟨hrest.1.trans hstep.1, hrest.2.trans hstep.2⟩

/-- C3: after any finite sequence of `flag`/`option` calls (with
arbitrary string names and arbitrary `option` arguments) starting from
the initial state on an argument list, the working list is an
order-preserving sub-sequence (`List.Sublist`) of the original argument
list: every remaining element occurs in the original list and the
relative order of any two never-removed elements is preserved. -/
theorem workingArguments_sublist_raw (raw : List String)
    (qs : List (CL → CL)) (h : ∀ f ∈ qs, IsQueryStep f) :
    (runQueries qs (initCL raw)).arguments.Sublist raw
    ∧ (runQueries qs (initCL raw)).original = raw :=
  runQueries_sublist qs h (initCL raw)

/-- Witness for C3: a concrete two-query run (one `flag`, one `option`)
on `["-r", "-f", "infile.txt", "extra"]` leaves a working list that is
a sublist of the original input. -/
theorem workingArguments_sublist_raw_witness :
    (∀ f ∈ [fun st => (flag "-r" st).2,
            fun st => (option "-f" (none : Option String) (some "")
              (fun s => Except.ok (some s)) st).2],
        IsQueryStep f)
    ∧ ((runQueries
          [fun st => (flag "-r" st).2,
           fun st => (option "-f" (none : Option String) (some "")
             (fun s => Except.ok (some s)) st).2]
          (initCL ["-r", "-f", "infile.txt", "extra"])).arguments.Sublist
        ["-r", "-f", "infile.txt", "extra"]
      ∧ (runQueries
          [fun st => (flag "-r" st).2,
           fun st => (option "-f" (none : Option String) (some "")
             (fun s => Except.ok (some s)) st).2]
          (initCL ["-r", "-f", "infile.txt", "extra"])).original
        = ["-r", "-f", "infile.txt", "extra"]) := by
  have hq : ∀ f ∈ [fun st => (flag "-r" st).2,
      fun st => (option "-f" (none : Option String) (some "")
        (fun s => Except.ok (some s)) st).2],
      IsQueryStep f := by
    intro f hf
    rcases List.mem_cons.mp hf with h1 | h2
    · exact Or.inl ⟨"-r", h1⟩
    · rcases List.mem_cons.mp h2 with h3 | h4
      · exact Or.inr ⟨Option String, "-f", none, some "",
          fun s => Except.ok (some s), h3⟩
      · exact absurd h4 (List.not_mem_nil f)
  exact ⟨hq, workingArguments_sublist_raw ["-r", "-f", "infile.txt", "extra"] _ hq⟩

/-- The Windows accumulator loop of `_glob_expand` appends, for each
argument in the order given, its glob matches when there are any and
the argument itself otherwise. -/
theorem glob_foldl_append (globFn : String → List String)
    (args : List String) (init : List String) :
    args.foldl
      (fun acc arg =>
        let globbed := globFn arg
        if globbed.isEmpty then acc ++ [arg] else acc ++ globFn arg)
      init
    = init ++ args.flatMap
        (fun arg => if (globFn arg).isEmpty then [arg] else globFn arg) := by
  induction args generalizing init with
  | nil => simp
  | cons a args ih =>
    simp only [List.foldl_cons, List.flatMap_cons, ih]
    by_cases h : (globFn a).isEmpty <;> simp [h, List.append_assoc]

/-- C8: on the platform without native shell expansion (Windows branch),
`_glob_expand` maps each argument independently and in the order given:
an argument whose glob has one or more filesystem matches is replaced in
place by its ordered match list, an argument with zero matches is kept
verbatim as a single literal argument (never dropped), and all matches
of one argument appear before all matches of the next (the result is
the in-order concatenation of the per-argument expansions).  The step
is a total function and cannot raise. -/
theorem glob_expand_windows_inplace (globFn : String → List String)
    (args : List String) :
    glob_expand true globFn args
      = args.flatMap
          (fun arg => if (globFn arg).isEmpty then [arg] else globFn arg) := by
  rw [glob_expand, if_pos rfl, glob_foldl_append, List.nil_append]

/-- On a list of literal arguments — each globbing to exactly itself or
to nothing — the Windows expansion is the identity. -/
theorem glob_expand_literal_fixed (globFn : String → List String)
    (args : List String)
    (h : ∀ a ∈ args, globFn a = [a] ∨ globFn a = []) :
    glob_expand true globFn args = args := by
  rw [glob_expand, if_pos rfl, glob_foldl_append, List.nil_append]
  induction args with
  | nil => rfl
  | cons a args ih =>
    rw [List.flatMap_cons,
        ih (fun b hb => h b (List.mem_cons_of_mem a hb))]
    rcases h a (List.mem_cons_self a args) with ha | ha <;> simp [ha]

/-- C9: pattern expansion is idempotent on literal argument lists: when
every entry either globs to exactly itself (it names an existing
filesystem entry) or globs to nothing, expanding the already-expanded
list yields the identical list back — on either platform branch. -/
theorem glob_expand_idempotent (isWin32 : Bool)
    (globFn : String → List String) (args : List String)
    (h : ∀ a ∈ args, globFn a = [a] ∨ globFn a = []) :
    glob_expand isWin32 globFn (glob_expand isWin32 globFn args)
      = glob_expand isWin32 globFn args := by
  cases isWin32 with
  | false => rfl
  | true =>
    have hfix := glob_expand_literal_fixed globFn args h
    rw [hfix]
    exact hfix

/-- Witness for C9: a glob function matching `"a.csv"` to itself and
nothing else, applied twice to `["a.csv", "*.pyc"]`, gives the same
result as applying it once. -/
theorem glob_expand_idempotent_witness :
    (∀ a ∈ (["a.csv", "*.pyc"] : List String),
        (fun s => if s = "a.csv" then ["a.csv"] else []) a = [a]
        ∨ (fun s => if s = "a.csv" then ["a.csv"] else []) a = [])
    ∧ glob_expand true (fun s => if s = "a.csv" then ["a.csv"] else [])
        (glob_expand true (fun s => if s = "a.csv" then ["a.csv"] else [])
          ["a.csv", "*.pyc"])
      = glob_expand true (fun s => if s = "a.csv" then ["a.csv"] else [])
          ["a.csv", "*.pyc"] :=
  ⟨by decide,
   glob_expand_idempotent true (fun s => if s = "a.csv" then ["a.csv"] else [])
     ["a.csv", "*.pyc"] (by decide)⟩
